import Mathlib

/-!
Shallow embedding of the ethereum-custom-transactions core
(Merkle commitment engine, payload wire encoding, nonce sequencer,
transaction orchestrator send path, batch pipeline submit, TTL proof
cache, connection pool), with theorems checking the specification's
claims against the embedded code.
-/

namespace EthTx

/-- Model of a 32-byte digest (`common.Hash`).  `Keccak256Hash` of the
concatenation of two digests is modelled as the free pairing constructor
`node`, i.e. the hash is idealised as injective (collision-free);
`base n` stands for an arbitrary leaf digest such as a transaction hash. -/
inductive Digest where
  | base (n : Nat)
  | node (l r : Digest)
deriving DecidableEq, Repr

namespace Merkle

/-- One pass of the inner loop of `Tree.build`: hash adjacent pairs
left-to-right (`Keccak256Hash(level[i] ‖ level[i+1])`); an unpaired
trailing node is promoted unchanged. -/
def combinePairs : List Digest → List Digest
  | [] => []
  | [x] => [x]
  | x :: y :: rest => Digest.node x y :: combinePairs rest

theorem combinePairs_length (l : List Digest) :
    (combinePairs l).length = (l.length + 1) / 2 := by
  induction l using combinePairs.induct with
  | case1 => simp [combinePairs]
  | case2 x => simp [combinePairs]
  | case3 x y rest ih =>
    simp only [combinePairs, List.length_cons, ih]
    omega

/-- `Tree.build`: starting from the leaf layer, repeatedly combine pairs
while more than one node remains, collecting every layer bottom-up.
The Go loop `for len(currentLevel) > 1` is the recursion guard. -/
def build (level : List Digest) : List (List Digest) :=
  if _h : level.length ≤ 1 then [level]
  else level :: build (combinePairs level)
termination_by level.length
decreasing_by
  rw [combinePairs_length]
  omega

/-- The root read at the end of `Tree.build`: `currentLevel[0]` of the
final layer.  `none` models the index-out-of-range panic when the final
layer is empty (which happens exactly for zero leaves). -/
def root? (leaves : List Digest) : Option Digest :=
  ((build leaves).getLastD []).head?

/-- The layer loop of `Tree.GenerateProof`: at each layer below the top,
append the sibling `layer[index ^ 1]` when it exists, then move to the
parent index `index >> 1`. -/
def proofLoop : List (List Digest) → Nat → List Digest
  | [], _ => []
  | layer :: rest, index =>
    (match layer.get? (index ^^^ 1) with
     | some s => [s]
     | none => []) ++ proofLoop rest (index / 2)

/-- `Tree.GenerateProof`: out-of-range index returns nil; otherwise walk
every layer except the topmost. -/
def GenerateProof (leaves : List Digest) (index : Nat) : List Digest :=
  if leaves.length ≤ index then []
  else proofLoop (build leaves).dropLast index

/-- One step of `Tree.VerifyProof`: combine with the supplied sibling,
ordering by the parity of the current index. -/
def verifyStep (current : Digest) (index : Nat) (sibling : Digest) : Digest :=
  if index % 2 == 0 then Digest.node current sibling
  else Digest.node sibling current

/-- The fold inside `Tree.VerifyProof` over the supplied sibling path,
halving the index after each sibling. -/
def verifyFold : Digest → Nat → List Digest → Digest
  | h, _, [] => h
  | h, index, s :: rest => verifyFold (verifyStep h index s) (index / 2) rest

/-- `Tree.VerifyProof`: replay the path from the leaf and compare with
the stored root. -/
def VerifyProof (root leaf : Digest) (index : Nat) (proof : List Digest) : Bool :=
  verifyFold leaf index proof == root

end Merkle

namespace TxData

/-- `MagicBytes`, the 4-byte marker prefixed to instrumented payloads.
Bytes are modelled as `Nat` values below 256. -/
def MagicBytes : List Nat := [0xCA, 0xFE, 0xDA, 0x7A]

/-- `binary.BigEndian.PutUint32`: the four big-endian bytes of a 32-bit
value (each byte is the corresponding 8-bit slice). -/
def putUint32BE (n : Nat) : List Nat :=
  [n / 2 ^ 24 % 256, n / 2 ^ 16 % 256, n / 2 ^ 8 % 256, n % 256]

/-- `binary.BigEndian.Uint32` on four bytes.  The `% 256` on each
argument reflects that Go's `byte` type cannot exceed 255. -/
def beUint32 (b0 b1 b2 b3 : Nat) : Nat :=
  ((b0 % 256 * 256 + b1 % 256) * 256 + b2 % 256) * 256 + b3 % 256

/-- `EncodeCustomData`: marker, then the 4-byte big-endian length of the
custom payload (`uint32(len(customData))`, hence `% 2^32`), then the
custom payload, then the standard data. -/
def EncodeCustomData (standardData customData : List Nat) : List Nat :=
  MagicBytes ++ putUint32BE (customData.length % 2 ^ 32) ++ customData ++ standardData

/-- Outcome of `DecodeCustomData`.  `panic` models the Go runtime panic
raised by an out-of-range slice expression; `fail` models returning a
non-nil `error`; Go's nil slices are modelled as `[]`. -/
inductive DecodeResult where
  | panic
  | fail
  | ok (customData standardData : List Nat)
deriving DecidableEq, Repr

/-- `DecodeCustomData`: buffers shorter than marker+length or without
the marker decode as plain standard data; otherwise the declared length
is read and checked against the buffer in wrapped `uint32` arithmetic
(`uint32(len(encodedData)) < uint32(offset)+length`), and the payload
and trailing standard data are sliced out.  The slice
`encodedData[offset : offset+int(length)]` panics when
`offset+length > len(encodedData)`. -/
def DecodeCustomData (encodedData : List Nat) : DecodeResult :=
  if encodedData.length < MagicBytes.length + 4 then
    .ok [] encodedData
  else if encodedData.take MagicBytes.length ≠ MagicBytes then
    .ok [] encodedData
  else
    let length := beUint32 (encodedData.getD 4 0) (encodedData.getD 5 0)
      (encodedData.getD 6 0) (encodedData.getD 7 0)
    let offset := MagicBytes.length + 4
    if encodedData.length % 2 ^ 32 < (offset + length) % 2 ^ 32 then
      .fail
    else if encodedData.length < offset + length then
      .panic
    else
      .ok ((encodedData.drop offset).take length)
        (encodedData.drop (offset + length))

/-- A standard-data buffer whose length makes the encoded buffer exactly
`2^32` bytes long, so that `uint32(len(encodedData))` wraps to 0. -/
def bigStandard : List Nat := List.replicate (2 ^ 32 - 8) 0

end TxData

namespace Nonce

/-- The nonce sequencer's state: `pendingNonces`, a map from sender
address to the next nonce to hand out.  Addresses are modelled as `Nat`
and the Go map as a total function into `Option Nat`. -/
structure Manager where
  pendingNonces : Nat → Option Nat

/-- A freshly constructed manager (`New`): empty map. -/
def emptyManager : Manager := ⟨fun _ => none⟩

/-- `Manager.GetNext`: hand out the cached nonce and bump the cache, or
seed the cache from the node's pending nonce (`fetch` is the outcome of
`PendingNonceAt`; on a fetch error the map is left untouched and the
error is surfaced). -/
def GetNext (fetch : Except Unit Nat) (m : Manager) (address : Nat) :
    Manager × Except Unit Nat :=
  match m.pendingNonces address with
  | some n =>
    (⟨fun a => if a = address then some (n + 1) else m.pendingNonces a⟩, .ok n)
  | none =>
    match fetch with
    | .error e => (m, .error e)
    | .ok k =>
      (⟨fun a => if a = address then some (k + 1) else m.pendingNonces a⟩, .ok k)

/-- `Manager.Reset`: delete the address's entry. -/
def Reset (m : Manager) (address : Nat) : Manager :=
  ⟨fun a => if a = address then none else m.pendingNonces a⟩

/-- `n` sequential calls to `GetNext` for one address, all against a
node whose pending nonce reads `fetch`, collecting the returned values. -/
def runGetNext (fetch : Except Unit Nat) (address : Nat) :
    Nat → Manager → Manager × List (Except Unit Nat)
  | 0, m => (m, [])
  | n + 1, m =>
    let step := GetNext fetch m address
    let rest := runGetNext fetch address n step.1
    (rest.1, step.2 :: rest.2)

end Nonce

namespace Send

/-- The panel of external outcomes a single `SendWithContext` call can
observe: the node's pending nonce, the suggested gas tip, the latest
header's base fee (`none` models `head.BaseFee == nil`), and whether
signing and submission succeed. -/
structure Env where
  pendingNonce : Except Unit Nat
  gasTip : Except Unit Nat
  header : Except Unit (Option Nat)
  signOk : Bool
  sendOk : Bool

/-- The mutable state a send touches: the nonce sequencer and the
`TxSent` / `TxFailed` metrics counters. -/
structure State where
  nonces : Nonce.Manager
  txSent : Nat
  txFailed : Nat

/-- The distinct error returns of `SendWithContext`, one per
`fmt.Errorf` site. -/
inductive SendErr where
  | nonceFetch
  | gasTip
  | header
  | baseFeeNil
  | sign
  | submit
deriving DecidableEq, Repr

/-- The signed transaction assembled by `NewCustomTransaction` and
`SignTx`, restricted to the fields the embedding tracks. -/
structure SignedTx where
  nonce : Nat
  gasTipCap : Nat
  gasFeeCap : Nat
  value : Nat
  data : List Nat
deriving DecidableEq, Repr

/-- `BaseFeeMultiplier = 2`. -/
def BaseFeeMultiplier : Nat := 2

/-- `Manager.SendWithContext`: default a nil value to zero, obtain the
next nonce, query gas tip and header, require a base fee, compute
`gasFeeCap = gasTip + baseFee*BaseFeeMultiplier`, build the transaction
with the encoded payload, sign, submit.  Failures after the nonce was
obtained reset the sequencer entry; only a submission failure bumps
`TxFailed`, and only success bumps `TxSent`. -/
def SendWithContext (env : Env) (address : Nat) (value : Option Nat)
    (customData data : List Nat) (st : State) : State × Except SendErr SignedTx :=
  let v := value.getD 0
  match Nonce.GetNext env.pendingNonce st.nonces address with
  | (nm, .error _) => ({ st with nonces := nm }, .error .nonceFetch)
  | (nm, .ok nonce) =>
    let st1 : State := { st with nonces := nm }
    match env.gasTip with
    | .error _ =>
      ({ st1 with nonces := Nonce.Reset st1.nonces address }, .error .gasTip)
    | .ok gasTipCap =>
      match env.header with
      | .error _ =>
        ({ st1 with nonces := Nonce.Reset st1.nonces address }, .error .header)
      | .ok none =>
        ({ st1 with nonces := Nonce.Reset st1.nonces address }, .error .baseFeeNil)
      | .ok (some baseFee) =>
        let gasFeeCap := gasTipCap + baseFee * BaseFeeMultiplier
        let tx : SignedTx :=
          { nonce := nonce, gasTipCap := gasTipCap, gasFeeCap := gasFeeCap,
            value := v, data := TxData.EncodeCustomData data customData }
        if env.signOk then
          if env.sendOk then
            ({ st1 with txSent := st1.txSent + 1 }, .ok tx)
          else
            ({ st1 with
                nonces := Nonce.Reset st1.nonces address
                txFailed := st1.txFailed + 1 }, .error .submit)
        else
          ({ st1 with nonces := Nonce.Reset st1.nonces address }, .error .sign)

end Send

namespace Batch

/-- A batch request; only the fields `Submit` touches are modelled
(`value = none` models a nil `*big.Int`). -/
structure Request where
  id : Nat
  value : Option Nat
deriving DecidableEq, Repr

/-- The error returns of `Processor.Submit`. -/
inductive SubmitErr where
  | closed
  | shuttingDown
  | queueFull
deriving DecidableEq, Repr

/-- The processor state `Submit` interacts with: the closed flag, the
cancellation flag of the processor context, the request channel
(capacity plus buffered contents) and the `TotalQueued` metric. -/
structure Processor where
  closed : Bool
  ctxDone : Bool
  capacity : Nat
  queue : List Request
  totalQueued : Nat

/-- `Processor.Submit`: reject when closed; default a nil value to
zero; bump `TotalQueued`; then the non-blocking `select`: enqueue when
the buffered channel has space, otherwise report shutdown if the
context is cancelled, otherwise return the queue-full error (with the
running pipeline of the claims, `ctxDone = false`, the `select` is
deterministic: its only ready case is the enqueue when space exists,
else the `default` branch). -/
def Submit (p : Processor) (req : Request) : Processor × Except SubmitErr Unit :=
  if p.closed then (p, .error .closed)
  else
    let req' : Request := { req with value := some (req.value.getD 0) }
    let p1 : Processor := { p with totalQueued := p.totalQueued + 1 }
    if p1.queue.length < p1.capacity then
      ({ p1 with queue := p1.queue ++ [req'] }, .ok ())
    else if p1.ctxDone then (p1, .error .shuttingDown)
    else (p1, .error .queueFull)

/-- Submit a list of requests in order with no draining in between,
collecting each call's outcome. -/
def submitAll (p : Processor) : List Request → Processor × List (Except SubmitErr Unit)
  | [] => (p, [])
  | r :: rs =>
    let step := Submit p r
    let rest := submitAll step.1 rs
    (rest.1, step.2 :: rest.2)

/-- A freshly constructed processor with request-queue capacity `c`
(running, empty queue). -/
def initProcessor (c : Nat) : Processor :=
  { closed := false, ctxDone := false, capacity := c, queue := [], totalQueued := 0 }

end Batch

namespace Cache

/-- The TTL proof cache: a map from transaction hash (the Go code keys
on `txHash.Hex()`; hashes are modelled as `Nat`) to the cached value
paired with its storage timestamp, plus the fixed ttl.  Time is
modelled as `Nat` instants; values as `Nat`. -/
structure ProofCache where
  cache : Nat → Option (Nat × Nat)
  ttl : Nat

/-- `ProofCache.Set`: store the value with the current time. -/
def Set (now : Nat) (pc : ProofCache) (txHash proof : Nat) : ProofCache :=
  { pc with cache := fun k => if k = txHash then some (proof, now) else pc.cache k }

/-- `ProofCache.Get`: miss when absent; when present, evict and miss if
`time.Since(Timestamp) > ttl` (`now - stored` in the model), else hit.
(The dynamic type-assertion branch of the Go code cannot arise in the
typed model.) -/
def Get (now : Nat) (pc : ProofCache) (txHash : Nat) : ProofCache × Option Nat :=
  match pc.cache txHash with
  | none => (pc, none)
  | some (proof, stored) =>
    if pc.ttl < now - stored then
      ({ pc with cache := fun k => if k = txHash then none else pc.cache k }, none)
    else (pc, some proof)

/-- An empty cache with the given ttl (`NewProofCache`). -/
def emptyCache (ttl : Nat) : ProofCache := ⟨fun _ => none, ttl⟩

end Cache

namespace Pool

/-- The connection pool: the fixed list of handles (modelled as `Nat`
identifiers), the round-robin cursor, and the closed flag. -/
structure ClientPool where
  clients : List Nat
  current : Nat
  closed : Bool

/-- `ClientPool.Get`: nil (`none`) when closed; otherwise return
`clients[current]` and advance the cursor by one modulo the pool size.
`get?` also yields `none` on an out-of-range cursor, which a
constructed pool never produces. -/
def Get (p : ClientPool) : ClientPool × Option Nat :=
  if p.closed then (p, none)
  else
    ({ p with current := (p.current + 1) % p.clients.length },
      p.clients.get? p.current)

/-- `n` consecutive `Get` calls by a single caller, collecting the
returned handles. -/
def runGet (p : ClientPool) : Nat → ClientPool × List (Option Nat)
  | 0 => (p, [])
  | n + 1 =>
    let step := Get p
    let rest := runGet step.1 n
    (rest.1, step.2 :: rest.2)

end Pool

end EthTx

namespace EthTx

/-! ## Supporting lemmas -/

namespace Merkle

theorem build_ne_nil (level : List Digest) : build level ≠ [] := by
  rw [build.eq_def]
  split <;> simp

theorem build_getLastD_ne_nil (level : List Digest) :
    level ≠ [] → ∀ d, (build level).getLastD d ≠ [] := by
  induction level using build.induct with
  | case1 level h1 =>
    intro h d
    rw [build.eq_def, dif_pos h1]
    simpa using h
  | case2 level h1 ih =>
    intro _ d
    have hne : combinePairs level ≠ [] := by
      have := combinePairs_length level
      intro hc
      rw [hc] at this
      simp at this
      omega
    rw [build.eq_def, dif_neg h1, List.getLastD_cons]
    exact ih hne level

end Merkle

namespace TxData

theorem beUint32_putUint32 (n : Nat) (h : n < 2 ^ 32) :
    beUint32 (n / 2 ^ 24 % 256) (n / 2 ^ 16 % 256) (n / 2 ^ 8 % 256) (n % 256) = n := by
  unfold beUint32
  omega

/-- Evaluation of `DecodeCustomData` on a buffer that starts with the
magic marker, in terms of the declared payload length. -/
theorem decode_marker_eq (b4 b5 b6 b7 : Nat) (rest : List Nat) :
    DecodeCustomData (0xCA :: 0xFE :: 0xDA :: 0x7A :: b4 :: b5 :: b6 :: b7 :: rest) =
      (if (rest.length + 8) % 2 ^ 32 < (8 + beUint32 b4 b5 b6 b7) % 2 ^ 32 then .fail
       else if rest.length + 8 < 8 + beUint32 b4 b5 b6 b7 then .panic
       else .ok (rest.take (beUint32 b4 b5 b6 b7)) (rest.drop (beUint32 b4 b5 b6 b7))) := by
  unfold DecodeCustomData
  rw [if_neg (by simp [MagicBytes]), if_neg (by simp [MagicBytes])]
  have hdrop : ∀ L : Nat,
      List.drop (4 + 4 + L) (0xCA :: 0xFE :: 0xDA :: 0x7A :: b4 :: b5 :: b6 :: b7 :: rest) =
        rest.drop L := by
    intro L
    rw [show (4 + 4 + L) = L + 8 by omega, ← List.drop_drop]
    simp
  simp [MagicBytes, hdrop]

theorem encode_nil_custom (s : List Nat) :
    EncodeCustomData s [] =
      0xCA :: 0xFE :: 0xDA :: 0x7A :: 0 :: 0 :: 0 :: 0 :: s := by
  simp [EncodeCustomData, MagicBytes, putUint32BE]

theorem bigStandard_length : bigStandard.length = 2 ^ 32 - 8 :=
  List.length_replicate ..

end TxData

namespace Nonce

/-- Once the cache holds `c` for an address, `n` further calls return
`c, c+1, …, c+n-1` without consulting the node. -/
theorem runGetNext_cached (fetch : Except Unit Nat) (address : Nat) :
    ∀ (n c : Nat) (m : Manager), m.pendingNonces address = some c →
      (runGetNext fetch address n m).2 = (List.range' c n).map Except.ok := by
  intro n
  induction n with
  | zero => intros; rfl
  | succ n ih =>
    intro c m hm
    have h1 : (GetNext fetch m address).2 = .ok c := by
      simp [GetNext, hm]
    have h2 : (GetNext fetch m address).1.pendingNonces address = some (c + 1) := by
      simp [GetNext, hm]
    simp only [runGetNext, List.range'_succ, List.map_cons]
    rw [ih (c + 1) _ h2, h1]

end Nonce

namespace Batch

/-- On a running processor, submissions are accepted while the queue
has free space and rejected with the queue-full error afterwards. -/
theorem submitAll_spec :
    ∀ (reqs : List Request) (p : Processor),
      p.closed = false → p.ctxDone = false →
      (submitAll p reqs).2 =
        List.replicate (min reqs.length (p.capacity - p.queue.length))
          (Except.ok ()) ++
        List.replicate (reqs.length - (p.capacity - p.queue.length))
          (Except.error SubmitErr.queueFull) := by
  intro reqs
  induction reqs with
  | nil => intros; simp [submitAll]
  | cons r rs ih =>
    intro p hc hd
    by_cases hq : p.queue.length < p.capacity
    · have hstep :
          Submit p r =
            ({ p with
                totalQueued := p.totalQueued + 1
                queue := p.queue ++ [{ r with value := some (r.value.getD 0) }] },
              .ok ()) := by
        simp [Submit, hc, hq]
      simp only [submitAll, hstep]
      rw [ih _ (by simp [hc]) (by simp [hd])]
      have e1 : min (rs.length + 1) (p.capacity - p.queue.length) =
          min rs.length (p.capacity - (p.queue.length + 1)) + 1 := by omega
      have e2 : rs.length + 1 - (p.capacity - p.queue.length) =
          rs.length - (p.capacity - (p.queue.length + 1)) := by omega
      simp only [List.length_cons, List.length_append, List.length_singleton]
      rw [e1, List.replicate_succ]
      simp
      omega
    · have hstep : Submit p r =
          ({ p with totalQueued := p.totalQueued + 1 }, .error .queueFull) := by
        simp [Submit, hc, hd, hq]
      simp only [submitAll, hstep]
      rw [ih _ (by simp [hc]) (by simp [hd])]
      have e0 : p.capacity - p.queue.length = 0 := by omega
      simp [e0, List.replicate_succ]

end Batch

namespace Pool

/-- `runGet` splits over a sum of call counts. -/
theorem runGet_add (m : Nat) :
    ∀ (n : Nat) (p : ClientPool),
      runGet p (m + n) =
        ((runGet (runGet p m).1 n).1,
          (runGet p m).2 ++ (runGet (runGet p m).1 n).2) := by
  induction m with
  | zero => intro n p; simp [runGet]
  | succ m ih =>
    intro n p
    rw [show m + 1 + n = (m + n) + 1 by omega]
    simp only [runGet, ih]
    simp

theorem runGet_zero (p : ClientPool) : runGet p 0 = (p, []) := rfl

theorem runGet_succ (p : ClientPool) (n : Nat) :
    runGet p (n + 1) =
      ((runGet (Get p).1 n).1, (Get p).2 :: (runGet (Get p).1 n).2) := rfl

/-- Walking the pool from cursor `c` to the end of the handle list:
the handles from position `c` on are returned in order and the cursor
wraps to 0. -/
theorem runGet_wrap (clients : List Nat) :
    ∀ (k c : Nat), c + k = clients.length →
      runGet ⟨clients, c, false⟩ k =
        (⟨clients, if k = 0 then c else 0, false⟩, (clients.drop c).map some) := by
  intro k
  induction k with
  | zero =>
    intro c hk
    rw [runGet_zero, if_pos rfl, show c = clients.length by omega, List.drop_length]
    rfl
  | succ k ih =>
    intro c hk
    have hc : c < clients.length := by omega
    have hget : clients.get? c = some (clients.get ⟨c, hc⟩) := List.get?_eq_get hc
    have hdrop : clients.drop c = clients.get ⟨c, hc⟩ :: clients.drop (c + 1) :=
      List.drop_eq_getElem_cons hc
    have hGet : Get ⟨clients, c, false⟩ =
        (⟨clients, (c + 1) % clients.length, false⟩, clients.get? c) := rfl
    rw [runGet_succ, hGet]
    cases k with
    | zero =>
      have hcur : (c + 1) % clients.length = 0 := by
        rw [show c + 1 = clients.length by omega]
        exact Nat.mod_self _
      simp only [hcur, runGet_zero, hget, hdrop]
      rw [show c + 1 = clients.length by omega, List.drop_length]
      rfl
    | succ k =>
      have hcur : (c + 1) % clients.length = c + 1 :=
        Nat.mod_eq_of_lt (by omega)
      rw [hcur, ih (c + 1) (by omega), hdrop, hget]
      simp
      conv_rhs => rw [List.drop_eq_getElem_cons (by simpa using hc)]
      simp

end Pool

end EthTx

namespace EthTx

/-! ## Claim theorems -/

open Merkle TxData Nonce Send Batch Cache Pool

/-- C1: the spec claims that for every tree with `n ≥ 1` leaves and
every valid index, `VerifyProof` accepts the path `GenerateProof`
returns.  The code violates this: for the 3-leaf tree, the root is
`node (node b0 b1) b2` and `GenerateProof 2` returns the single sibling
`node b0 b1`, but `VerifyProof` drives the left/right ordering by the
parity of the *leaf-layer* index 2 (even), so it recombines in the
wrong order and rejects the honestly generated proof. -/
theorem merkle_roundtrip_violation :
    root? [Digest.base 0, Digest.base 1, Digest.base 2] =
      some (.node (.node (.base 0) (.base 1)) (.base 2)) ∧
    GenerateProof [Digest.base 0, Digest.base 1, Digest.base 2] 2 =
      [.node (.base 0) (.base 1)] ∧
    VerifyProof (.node (.node (.base 0) (.base 1)) (.base 2))
      (Digest.base 2) 2 [.node (.base 0) (.base 1)] = false := by
  refine ⟨?_, ?_, ?_⟩
  · simp [root?, build, combinePairs]
  · simp [GenerateProof, build, combinePairs, proofLoop]
  · decide

/-- C10: building a tree from an empty transaction list is not total:
the final layer is the empty leaf layer and the root read
`currentLevel[0]` is out of range (modelled as `root? [] = none`),
whereas at least one leaf always yields a root. -/
theorem newTree_empty_leaves_panics :
    root? ([] : List Digest) = none ∧
    ∀ leaves : List Digest, leaves ≠ [] → (root? leaves).isSome := by
  constructor
  · simp [root?, build]
  · intro leaves h
    have hne := build_getLastD_ne_nil leaves h []
    simpa [root?, List.head?_isSome] using hne

/-- Witness for C10 at the concrete one-leaf tree. -/
theorem newTree_empty_leaves_panics_witness :
    root? ([] : List Digest) = none ∧
    ([Digest.base 7] ≠ ([] : List Digest) ∧
      (root? [Digest.base 7]).isSome) :=
  ⟨newTree_empty_leaves_panics.1,
    by simp,
    newTree_empty_leaves_panics.2 [Digest.base 7] (by simp)⟩

/-- C3 (amended): the encode/decode round-trip returns exactly the pair
(custom, standard), for all buffers whose encoded length
`8 + |custom| + |standard|` fits in a `uint32`.  (The unamended claim,
quantified over all byte sequences, fails once the encoded buffer
reaches `2^32` bytes; see the counterexample.) -/
theorem encode_decode_roundtrip (standardData customData : List Nat)
    (h : 8 + customData.length + standardData.length < 2 ^ 32) :
    DecodeCustomData (EncodeCustomData standardData customData) =
      .ok customData standardData := by
  have hcl : customData.length % 2 ^ 32 = customData.length :=
    Nat.mod_eq_of_lt (by omega)
  have henc : EncodeCustomData standardData customData =
      0xCA :: 0xFE :: 0xDA :: 0x7A ::
        (customData.length / 2 ^ 24 % 256) :: (customData.length / 2 ^ 16 % 256) ::
        (customData.length / 2 ^ 8 % 256) :: (customData.length % 256) ::
        (customData ++ standardData) := by
    simp [EncodeCustomData, MagicBytes, putUint32BE, hcl]
    omega
  rw [henc, decode_marker_eq, beUint32_putUint32 _ (by omega)]
  have hl : (customData ++ standardData).length =
      customData.length + standardData.length := by simp
  rw [hl, Nat.mod_eq_of_lt (by omega), Nat.mod_eq_of_lt (by omega),
    if_neg (by omega), if_neg (by omega)]
  simp [List.take_left, List.drop_left]

/-- Witness for C3 at the spec's concrete case:
`encode([0x01,0x02], "custom")` decodes back to `("custom", [0x01,0x02])`. -/
theorem encode_decode_roundtrip_witness :
    8 + ([0x63, 0x75, 0x73, 0x74, 0x6F, 0x6D] : List Nat).length +
        ([0x01, 0x02] : List Nat).length < 2 ^ 32 ∧
    DecodeCustomData
        (EncodeCustomData [0x01, 0x02] [0x63, 0x75, 0x73, 0x74, 0x6F, 0x6D]) =
      .ok [0x63, 0x75, 0x73, 0x74, 0x6F, 0x6D] [0x01, 0x02] :=
  ⟨by norm_num,
    encode_decode_roundtrip [0x01, 0x02] [0x63, 0x75, 0x73, 0x74, 0x6F, 0x6D]
      (by norm_num)⟩

/-- Counterexample to C3 as stated: with an empty custom payload and a
`2^32 - 8`-byte standard buffer, `uint32(len(encodedData))` wraps to 0,
the wrapped bounds check `0 < 8` fires, and decoding returns an error
instead of the pair `([], standard)`. -/
theorem encode_decode_roundtrip_fails_at_4gb :
    DecodeCustomData (EncodeCustomData bigStandard []) = .fail ∧
    (DecodeResult.fail ≠ .ok [] bigStandard) := by
  constructor
  · rw [encode_nil_custom, decode_marker_eq, if_pos]
    rw [bigStandard_length]
    show (2 ^ 32 - 8 + 8) % 2 ^ 32 < (8 + beUint32 0 0 0 0) % 2 ^ 32
    norm_num [beUint32]
  · rintro ⟨⟩

/-- C6: a buffer shorter than the 8-byte marker-plus-length prefix, or
one whose first 4 bytes differ from the magic marker, decodes with no
error to the whole buffer as standard data and no custom payload. -/
theorem decode_short_or_unmarked (d : List Nat)
    (h : d.length < 8 ∨ d.take 4 ≠ MagicBytes) :
    DecodeCustomData d = .ok [] d := by
  unfold DecodeCustomData
  rcases h with h | h
  · rw [if_pos]
    show d.length < 4 + 4
    omega
  · by_cases hlen : d.length < MagicBytes.length + 4
    · rw [if_pos hlen]
    · rw [if_neg hlen,
        if_pos (show List.take MagicBytes.length d ≠ MagicBytes by
          simpa [MagicBytes] using h)]

/-- Witness for C6 at the concrete short buffer `[1,2,3]`. -/
theorem decode_short_or_unmarked_witness :
    (([1, 2, 3] : List Nat).length < 8 ∨
      ([1, 2, 3] : List Nat).take 4 ≠ MagicBytes) ∧
    DecodeCustomData [1, 2, 3] = .ok [] [1, 2, 3] :=
  ⟨Or.inl (by norm_num),
    decode_short_or_unmarked [1, 2, 3] (Or.inl (by norm_num))⟩

/-- C7: the spec claims every marker-bearing buffer whose declared
length exceeds the remaining bytes yields a decode error.  The code's
bounds check runs in wrapped `uint32` arithmetic: on the 8-byte buffer
`marker ‖ FF FF FF FF` the declared length `2^32 - 1` exceeds the 0
remaining bytes, yet `8 < (8 + (2^32-1)) mod 2^32 = 7` is false, so the
check passes and the following slice expression panics instead of
returning the error. -/
theorem decode_overflow_length_panics :
    ([0xCA, 0xFE, 0xDA, 0x7A, 0xFF, 0xFF, 0xFF, 0xFF] : List Nat).take 4 =
      MagicBytes ∧
    beUint32 0xFF 0xFF 0xFF 0xFF = 2 ^ 32 - 1 ∧
    DecodeCustomData [0xCA, 0xFE, 0xDA, 0x7A, 0xFF, 0xFF, 0xFF, 0xFF] =
      .panic := by
  decide

/-- C4: with an empty cache, `n` sequential `GetNext` calls for one
address against a node reporting pending nonce `k` return
`k, k+1, …, k+n-1`; `Reset` clears the cached entry, and the call after
a `Reset` returns whatever the node reports (`j`, for every `j`), i.e.
it re-queries the source of truth rather than using a cached value. -/
theorem nonce_monotonic_and_reset_refetches (address k n : Nat) :
    (Nonce.runGetNext (.ok k) address n Nonce.emptyManager).2 =
      (List.range' k n).map Except.ok ∧
    (∀ m : Nonce.Manager,
      (Nonce.Reset m address).pendingNonces address = none) ∧
    (∀ (m : Nonce.Manager) (j : Nat),
      (Nonce.GetNext (.ok j) (Nonce.Reset m address) address).2 = .ok j) := by
  refine ⟨?_, ?_, ?_⟩
  · cases n with
    | zero => rfl
    | succ n =>
      have h1 : (Nonce.GetNext (.ok k) Nonce.emptyManager address).2 = .ok k := by
        simp [Nonce.GetNext, Nonce.emptyManager]
      have h2 : (Nonce.GetNext (.ok k) Nonce.emptyManager address).1.pendingNonces
          address = some (k + 1) := by
        simp [Nonce.GetNext, Nonce.emptyManager]
      simp only [Nonce.runGetNext, List.range'_succ, List.map_cons]
      rw [Nonce.runGetNext_cached (.ok k) address n (k + 1) _ h2, h1]
  · intro m
    simp [Nonce.Reset]
  · intro m j
    simp [Nonce.GetNext, Nonce.Reset]

/-- Counterexample to C2 as stated: when the priority-fee query fails
(all earlier steps succeeding), `SendWithContext` returns an error and
resets the sender's nonce, but does **not** increment the failed
counter — the claim requires `txFailed` to become 1 here. -/
theorem send_gasTip_failure_skips_failed_counter :
    (Send.SendWithContext
        { pendingNonce := .ok 5, gasTip := .error (), header := .ok (some 7),
          signOk := true, sendOk := true } 0 none [] []
        { nonces := Nonce.emptyManager, txSent := 0, txFailed := 0 }).2 =
      .error .gasTip ∧
    (Send.SendWithContext
        { pendingNonce := .ok 5, gasTip := .error (), header := .ok (some 7),
          signOk := true, sendOk := true } 0 none [] []
        { nonces := Nonce.emptyManager, txSent := 0, txFailed := 0 }).1.txFailed
      = 0 ∧
    (Send.SendWithContext
        { pendingNonce := .ok 5, gasTip := .error (), header := .ok (some 7),
          signOk := true, sendOk := true } 0 none [] []
        { nonces := Nonce.emptyManager, txSent := 0, txFailed := 0 }).1.nonces.pendingNonces 0
      = none :=
  ⟨rfl, rfl, rfl⟩

/-- C2 (amended): on success `SendWithContext` increments the sent
counter and returns the signed transaction; a *submission* failure
increments the failed counter, resets the sender's nonce and returns an
error; the remaining failures after the nonce was obtained (priority
fee, header, missing base fee, signing) reset the nonce and return an
error but leave both counters unchanged. -/
theorem sendWithContext_outcomes (env : Send.Env) (address : Nat)
    (value : Option Nat) (customData data : List Nat) (st : Send.State) :
    (∀ tx, (Send.SendWithContext env address value customData data st).2 = .ok tx →
      (Send.SendWithContext env address value customData data st).1.txSent =
        st.txSent + 1 ∧
      (Send.SendWithContext env address value customData data st).1.txFailed =
        st.txFailed) ∧
    ((Send.SendWithContext env address value customData data st).2 =
        .error .submit →
      (Send.SendWithContext env address value customData data st).1.txFailed =
        st.txFailed + 1 ∧
      (Send.SendWithContext env address value customData data st).1.txSent =
        st.txSent ∧
      (Send.SendWithContext env address value customData data
        st).1.nonces.pendingNonces address = none) ∧
    (∀ e, (e = Send.SendErr.gasTip ∨ e = .header ∨ e = .baseFeeNil ∨ e = .sign) →
      (Send.SendWithContext env address value customData data st).2 = .error e →
      (Send.SendWithContext env address value customData data st).1.txFailed =
        st.txFailed ∧
      (Send.SendWithContext env address value customData data st).1.txSent =
        st.txSent ∧
      (Send.SendWithContext env address value customData data
        st).1.nonces.pendingNonces address = none) := by
  obtain ⟨pn, gt, hd, sg, sd⟩ := env
  rcases hc : st.nonces.pendingNonces address with _ | c <;>
    cases pn <;> cases gt <;>
    rcases hd with _ | ⟨_ | bf⟩ <;> cases sg <;> cases sd <;>
    simp_all [Send.SendWithContext, Nonce.GetNext, Nonce.Reset]

/-- Witness for C2 at a concrete submission failure: the failed counter
is incremented, the sent counter is unchanged and the nonce cache is
cleared. -/
theorem sendWithContext_outcomes_witness :
    (Send.SendWithContext
        { pendingNonce := .ok 5, gasTip := .ok 3, header := .ok (some 7),
          signOk := true, sendOk := false } 0 none [] []
        { nonces := Nonce.emptyManager, txSent := 0, txFailed := 0 }).2 =
      .error .submit ∧
    (Send.SendWithContext
        { pendingNonce := .ok 5, gasTip := .ok 3, header := .ok (some 7),
          signOk := true, sendOk := false } 0 none [] []
        { nonces := Nonce.emptyManager, txSent := 0, txFailed := 0 }).1.txFailed
      = 0 + 1 ∧
    (Send.SendWithContext
        { pendingNonce := .ok 5, gasTip := .ok 3, header := .ok (some 7),
          signOk := true, sendOk := false } 0 none [] []
        { nonces := Nonce.emptyManager, txSent := 0, txFailed := 0 }).1.txSent
      = 0 ∧
    (Send.SendWithContext
        { pendingNonce := .ok 5, gasTip := .ok 3, header := .ok (some 7),
          signOk := true, sendOk := false } 0 none [] []
        { nonces := Nonce.emptyManager, txSent := 0, txFailed := 0 }).1.nonces.pendingNonces 0
      = none :=
  ⟨rfl,
    (sendWithContext_outcomes
      { pendingNonce := .ok 5, gasTip := .ok 3, header := .ok (some 7),
        signOk := true, sendOk := false } 0 none [] []
      { nonces := Nonce.emptyManager, txSent := 0, txFailed := 0 }).2.1 rfl⟩

/-- C5: on a freshly constructed processor with request-queue capacity
`c` and no draining, submitting any request sequence accepts exactly
the first `c` submissions with no error and rejects every later one
with the queue-full error (the non-blocking `select` never waits). -/
theorem batch_backpressure (c : Nat) (reqs : List Batch.Request) :
    (Batch.submitAll (Batch.initProcessor c) reqs).2 =
      List.replicate (min reqs.length c) (Except.ok ()) ++
      List.replicate (reqs.length - c) (Except.error Batch.SubmitErr.queueFull) := by
  have h := Batch.submitAll_spec reqs (Batch.initProcessor c) rfl rfl
  simpa [Batch.initProcessor] using h

/-- C8: a value stored in the TTL proof cache at time `t` is returned
by every `Get` at a time `t'` with `t' - t ≤ ttl`, and a `Get` with
`t' - t > ttl` misses and evicts the entry. -/
theorem ttl_cache_get_after_set (pc : Cache.ProofCache) (key v t t' : Nat) :
    (t' - t ≤ pc.ttl →
      (Cache.Get t' (Cache.Set t pc key v) key).2 = some v) ∧
    (pc.ttl < t' - t →
      (Cache.Get t' (Cache.Set t pc key v) key).2 = none ∧
      (Cache.Get t' (Cache.Set t pc key v) key).1.cache key = none) := by
  constructor
  · intro h
    simp [Cache.Get, Cache.Set, Nat.not_lt.mpr h]
  · intro h
    simp [Cache.Get, Cache.Set, h]

/-- Witness for C8: ttl 5, store at time 0, hit at time 3, miss with
eviction at time 10. -/
theorem ttl_cache_get_after_set_witness :
    ((3 : Nat) - 0 ≤ (Cache.emptyCache 5).ttl ∧
      (Cache.Get 3 (Cache.Set 0 (Cache.emptyCache 5) 1 42) 1).2 = some 42) ∧
    ((Cache.emptyCache 5).ttl < 10 - 0 ∧
      (Cache.Get 10 (Cache.Set 0 (Cache.emptyCache 5) 1 42) 1).2 = none ∧
      (Cache.Get 10 (Cache.Set 0 (Cache.emptyCache 5) 1 42) 1).1.cache 1 = none) :=
  ⟨⟨by decide,
      (ttl_cache_get_after_set (Cache.emptyCache 5) 1 42 0 3).1 (by decide)⟩,
    by decide,
    (ttl_cache_get_after_set (Cache.emptyCache 5) 1 42 0 10).2 (by decide)⟩

/-- C9: for a pool with handle list `clients` (size `N ≥ 1`), `2N`
consecutive single-caller `Get` calls return the handle list twice over
in the same order — each handle exactly twice, the second pass ordered
like the first. -/
theorem pool_round_robin (clients : List Nat) (h : clients ≠ []) :
    (Pool.runGet ⟨clients, 0, false⟩ (2 * clients.length)).2 =
      clients.map some ++ clients.map some := by
  have hN : clients.length ≠ 0 := by
    simpa using h
  have h1 := Pool.runGet_wrap clients clients.length 0 (by omega)
  rw [two_mul, Pool.runGet_add, h1]
  simp only [List.drop_zero, if_neg hN]
  rw [h1]
  simp [if_neg hN]

/-- Witness for C9 at the two-handle pool `[10, 20]`. -/
theorem pool_round_robin_witness :
    ([10, 20] : List Nat) ≠ [] ∧
    (Pool.runGet ⟨[10, 20], 0, false⟩ (2 * ([10, 20] : List Nat).length)).2 =
      ([10, 20] : List Nat).map some ++ ([10, 20] : List Nat).map some :=
  ⟨by decide, pool_round_robin [10, 20] (by decide)⟩

end EthTx
